import Mathlib

/-!
Verification of the glcn registry dependency-resolution and manifest-build
pipeline against its natural-language specification.

The registry declaration groups (the `_registry.ts` files under
`src/apps/v1/src/registry/webgl/`) are transcribed literally below.  The
pipeline itself (the build script `src/scripts/build-registry.mts`:
aggregator, dependency resolver, schema validator, path rewriter and
manifest emitter) is not present in the repository snapshot, so those
components are modelled from the specification's component contracts
(spec sections 4.1 to 4.5).
-/

namespace Glcn

/-- A file descriptor of a registry item: `path`, `type` and an optional
explicit `target`, mirroring the shape of the `files` entries in the
`_registry.ts` declaration files. -/
structure RegistryFile where
  path : String
  type : String
  target : Option String := none
deriving DecidableEq, Repr

/-- One registry item declaration, mirroring the record shape used by the
`_registry.ts` declaration files (shadcn `Registry["items"]` entries). -/
structure Item where
  name : String
  type : String
  description : Option String := none
  dependencies : List String := []
  registryDependencies : List String := []
  files : List RegistryFile
deriving DecidableEq, Repr

/-- The `hooks` declaration group, transcribed from
`src/apps/v1/src/registry/webgl/hooks/_registry.ts`. -/
def hooks : List Item :=
  [ { name := "use-defines"
    , type := "registry:hook"
    , description := some "A hook for managing shader defines in Three.js materials"
    , dependencies := ["three"]
    , files := [{ path := "registry/webgl/hooks/use-defines.ts", type := "registry:hook" }] }
  , { name := "use-double-fbo"
    , type := "registry:hook"
    , description := some "A hook for managing double frame buffer objects with automatic ping-pong"
    , dependencies := ["@react-three/fiber", "three"]
    , registryDependencies := ["double-fbo"]
    , files := [{ path := "registry/webgl/hooks/use-double-fbo.ts", type := "registry:hook" }] }
  , { name := "use-fbo"
    , type := "registry:hook"
    , description := some "A hook for managing frame buffer objects in React Three Fiber"
    , dependencies := ["@react-three/fiber", "three"]
    , files := [{ path := "registry/webgl/hooks/use-fbo.ts", type := "registry:hook" }] }
  , { name := "use-raw-shader"
    , type := "registry:hook"
    , description := some "A hook for creating and managing RawShaderMaterial with defines support"
    , dependencies := ["three"]
    , registryDependencies := ["use-defines", "webgl-types"]
    , files := [{ path := "registry/webgl/hooks/use-raw-shader.ts", type := "registry:hook" }] }
  , { name := "use-shader"
    , type := "registry:hook"
    , description := some "A hook for creating and managing ShaderMaterial with defines support"
    , dependencies := ["three"]
    , registryDependencies := ["use-defines", "webgl-types"]
    , files := [{ path := "registry/webgl/hooks/use-shader.ts", type := "registry:hook" }] }
  , { name := "use-uniforms"
    , type := "registry:hook"
    , description := some "A hook for managing shader uniforms in Three.js"
    , dependencies := ["three"]
    , files := [{ path := "registry/webgl/hooks/use-uniforms.ts", type := "registry:hook" }] } ]

/-- The `components` declaration group, transcribed from
`src/apps/v1/src/registry/webgl/components/_registry.ts`. -/
def components : List Item :=
  [ { name := "render-texture"
    , type := "registry:component"
    , description := some "A component for rendering React Three Fiber scenes to textures"
    , dependencies := ["@react-three/fiber", "three"]
    , files := [{ path := "registry/webgl/components/render-texture.tsx", type := "registry:component" }] } ]

/-- The `shaderChunks` declaration group, transcribed from
`src/apps/v1/src/registry/webgl/lib/shader-chunks/_registry.ts`. -/
def shaderChunks : List Item :=
  [ { name := "bayer-2x2"
    , type := "registry:lib"
    , files := [{ path := "registry/webgl/lib/shader-chunks/bayer-2x2.glsl"
                , type := "registry:lib"
                , target := some "lib/shader-chunks/bayer-2x2.glsl" }] } ]

/-- The `lib` declaration group, transcribed from the repository's
`lib/_registry.ts` (the full variant, which spreads `shaderChunks` at the
end exactly as the source file does). -/
def lib : List Item :=
  [ { name := "double-fbo"
    , type := "registry:lib"
    , description := some "A utility class for managing double frame buffer objects with ping-pong functionality"
    , dependencies := ["three"]
    , files := [{ path := "registry/webgl/lib/double-fbo.ts", type := "registry:lib" }] }
  , { name := "webgl-types"
    , type := "registry:lib"
    , description := some "Type definitions for common Three.js WebGL uniforms and utilities"
    , dependencies := ["three"]
    , files := [{ path := "registry/webgl/lib/webgl-types.ts", type := "registry:lib" }] }
  , { name := "quads"
    , type := "registry:lib"
    , description := some "Utilities for creating fullscreen quad geometry and camera useful for full screen shaders."
    , dependencies := ["three"]
    , files := [{ path := "registry/webgl/lib/quads.ts", type := "registry:lib" }] }
  , { name := "save-gl-state"
    , type := "registry:lib"
    , description := some "Utility for saving and restoring Three.js WebGLRenderer state (viewport, clear color, render target, etc)."
    , dependencies := ["three", "@react-three/fiber"]
    , files := [{ path := "registry/webgl/lib/save-gl-state.ts", type := "registry:lib" }] } ]
  ++ shaderChunks

/-- The repository's declaration groups, in declaration-tree order: hooks,
components, and the lib group (which already includes the shader chunks). -/
def repoGroups : List (List Item) := [hooks, components, lib]

/-- Errors of the build pipeline, one constructor per error kind named in
spec section 7. `ResolutionDepthExceeded` is the resolver's recursion
guard; it is proved unreachable below. -/
inductive BuildError where
  | DuplicateNameError : String → BuildError
  | CyclicDependencyError : List String → BuildError
  | UnresolvedDependencyError : (missing : String) → (referrer : String) → BuildError
  | SchemaViolationError : (item : String) → (field : String) → BuildError
  | FileReadError : String → BuildError
  | ResolutionDepthExceeded : BuildError
deriving DecidableEq, Repr

/-- Name lookup in the aggregated registry (first declaration wins). -/
def lookupItem : List Item → String → Option Item
  | [], _ => none
  | it :: rest, n => if it.name = n then some it else lookupItem rest n

/-- Modelled from the spec: the Declaration Aggregator of section 4.1
(part of the missing build script `build-registry.mts`).  It merges the
declaration groups into one flat registry, failing eagerly with a
`DuplicateNameError` as soon as a name is declared twice. -/
def aggregateGo : List Item → List Item → Except BuildError (List Item)
  | acc, [] => .ok acc
  | acc, it :: rest =>
      if it.name ∈ acc.map Item.name then .error (.DuplicateNameError it.name)
      else aggregateGo (acc ++ [it]) rest

/-- Modelled from the spec: aggregation over the flattened declaration
groups (spec section 4.1). -/
def aggregate (groups : List (List Item)) : Except BuildError (List Item) :=
  aggregateGo [] groups.flatten

/-- A resolved item: the transitive closure of in-registry dependencies
(in emission order) and the accumulated external-dependency set. -/
structure Resolved where
  closure : List String
  externals : List String
deriving DecidableEq, Repr

/-- Set union on dependency lists: keeps the left list and appends the
members of the right list not already present. -/
def unionStrings (a b : List String) : List String :=
  a ++ b.filter (fun x => decide (x ∉ a))

/-- Error-propagating fold used by the resolver over a dependency list. -/
def foldResolve (f : Resolved → String → Except BuildError Resolved) :
    Resolved → List String → Except BuildError Resolved
  | acc, [] => .ok acc
  | acc, d :: ds =>
      match f acc d with
      | .error e => .error e
      | .ok acc' => foldResolve f acc' ds

/-- Modelled from the spec: the core traversal of the Dependency Graph
Resolver of section 4.2 (part of the missing build script
`build-registry.mts`).  Depth-first traversal over the name graph:
a name already in the accumulated closure is skipped (visited set), a
name already on the current path raises `CyclicDependencyError`, a name
absent from the registry raises `UnresolvedDependencyError` naming the
missing dependency and its referrer; otherwise all of the item's
registry dependencies are resolved first and the item is then appended
to the closure (dependencies before dependents) while its external
dependencies are merged into the external set.  The `Nat` argument is a
recursion guard proved unreachable below. -/
def resolveGo (reg : List Item) :
    Nat → List String → Resolved → String → String → Except BuildError Resolved
  | 0, _, _, _, _ => .error .ResolutionDepthExceeded
  | fuel + 1, path, acc, referrer, n =>
      if n ∈ acc.closure then .ok acc
      else if n ∈ path then .error (.CyclicDependencyError (n :: path))
      else
        match lookupItem reg n with
        | none => .error (.UnresolvedDependencyError n referrer)
        | some item =>
            match foldResolve (fun a d => resolveGo reg fuel (n :: path) a n d)
                acc item.registryDependencies with
            | .error e => .error e
            | .ok acc1 =>
                .ok { closure := acc1.closure ++ [n]
                    , externals := unionStrings acc1.externals item.dependencies }

/-- The registry's name list. -/
def namesOf (reg : List Item) : List String := reg.map Item.name

/-- Modelled from the spec: the Dependency Graph Resolver of section 4.2,
entered at the target item with an empty path and empty accumulator. -/
def resolve (reg : List Item) (target : String) : Except BuildError Resolved :=
  resolveGo reg ((namesOf reg).dedup.length + 1) [] ⟨[], []⟩ target target

/-- The number of registry names not yet on the traversal path: the
decreasing measure justifying the resolver's recursion guard. -/
def remCount (reg : List Item) (path : List String) : Nat :=
  ((namesOf reg).dedup.filter (fun x => decide (x ∉ path))).length

/-- The direct registry-dependency list of a name (empty when the name is
not declared). -/
def depsOf (reg : List Item) (a : String) : List String :=
  match lookupItem reg a with
  | none => []
  | some it => it.registryDependencies

/-- The dependency edge relation of the registry graph: `a` directly
depends on `b`. -/
def Edge (reg : List Item) (a b : String) : Prop := b ∈ depsOf reg a

instance (reg : List Item) (a b : String) : Decidable (Edge reg a b) := by
  unfold Edge; infer_instance

/-- Every `registryDependencies` entry of every declared item names an
item present in the registry. -/
def NoMissingRefs (reg : List Item) : Prop :=
  ∀ it ∈ reg, ∀ d ∈ it.registryDependencies, (lookupItem reg d).isSome

instance (reg : List Item) : Decidable (NoMissingRefs reg) := by
  unfold NoMissingRefs; infer_instance

/-- Success test for pipeline results. -/
def isOk : Except BuildError Resolved → Bool
  | .ok _ => true
  | .error _ => false

instance {ε α : Type} [DecidableEq ε] [DecidableEq α] : DecidableEq (Except ε α) := fun a b =>
  match a, b with
  | .error e1, .error e2 =>
      if h : e1 = e2 then isTrue (by rw [h])
      else isFalse (fun hc => h (by injection hc))
  | .error _, .ok _ => isFalse (fun hc => by injection hc)
  | .ok _, .error _ => isFalse (fun hc => by injection hc)
  | .ok a1, .ok a2 =>
      if h : a1 = a2 then isTrue (by rw [h])
      else isFalse (fun hc => h (by injection hc))

/-- Lexicographic comparison of character lists (the byte order used for
canonical serialization). -/
def charListLe : List Char → List Char → Bool
  | [], _ => true
  | _ :: _, [] => false
  | a :: as, b :: bs => if a = b then charListLe as bs else decide (a < b)

/-- Lexicographic order on strings. -/
def strLe (a b : String) : Prop := charListLe a.data b.data = true

instance : DecidableRel strLe := fun a b => by unfold strLe; infer_instance

/-- Canonical sort of a string list. -/
def sortStrings (l : List String) : List String := List.insertionSort strLe l

/-- Modelled from the spec: canonical serialization of a resolved item
(spec section 4.2, Determinism): both sets are rendered in canonical
sorted order, independent of insertion order. -/
def serializeResolved (res : Resolved) : String :=
  String.intercalate "," (sortStrings res.closure) ++ ";" ++
    String.intercalate "," (sortStrings res.externals)

/-- The closed set of item kinds used by the declaration files. -/
def validKinds : List String := ["registry:component", "registry:hook", "registry:lib"]

/-- A character allowed in an item identifier (lowercase letter, digit or
hyphen). -/
def isKebabChar (c : Char) : Bool :=
  (97 ≤ c.toNat && c.toNat ≤ 122) || (48 ≤ c.toNat && c.toNat ≤ 57) || c = '-'

/-- The identifier pattern of spec section 4.3: non-empty, lowercase,
hyphen-separated. -/
def isKebabName (s : String) : Bool :=
  !s.data.isEmpty && s.data.all isKebabChar

/-- A non-empty relative path (does not start with a separator). -/
def isRelativePath (p : String) : Bool :=
  match p.data with
  | [] => false
  | c :: _ => c ≠ '/'

/-- A file descriptor is schema-valid when its source path is a non-empty
relative path that exists (membership in the explicit list of on-disk
paths `fsPaths`). -/
def fileOk (fsPaths : List String) (f : RegistryFile) : Bool :=
  isRelativePath f.path && fsPaths.contains f.path

/-- Modelled from the spec: the Schema Validator of section 4.3 (part of
the missing build script `build-registry.mts`).  It checks one item and
returns every violation found, each as its own `SchemaViolationError`
carrying the item's name and the failing field; it never stops at the
first violation. -/
def validateItem (fsPaths : List String) (it : Item) : List BuildError :=
  (if isKebabName it.name then [] else [.SchemaViolationError it.name "name"])
    ++ (if it.type ∈ validKinds then [] else [.SchemaViolationError it.name "kind"])
    ++ (if it.files.isEmpty then [.SchemaViolationError it.name "files"] else [])
    ++ (it.files.filter (fun f => !fileOk fsPaths f)).map
        (fun _ => .SchemaViolationError it.name "sourcePath")

/-- Modelled from the spec: single-pass validation of the whole registry,
collecting every violation of every item (spec sections 4.3 and 7). -/
def validateRegistry (fsPaths : List String) (reg : List Item) : List BuildError :=
  (reg.map (validateItem fsPaths)).flatten

/-- The fixed root of the source layout understood by the installer. -/
def sourceRoot : String := "registry/webgl/"

/-- Modelled from the spec: the Path Rewriter of section 4.4 (part of the
missing build script `build-registry.mts`).  A pure function of the
source path and the kind: the fixed source root is stripped so the target
layout mirrors the source layout; a path outside the root is kept as is.
The kind argument carries the installer's directory convention and does
not alter the mirrored layout. -/
def rewriteTarget (sourcePath kind : String) : String :=
  if sourcePath.data.take sourceRoot.data.length = sourceRoot.data then
    String.mk (sourcePath.data.drop sourceRoot.data.length)
  else sourcePath

/-- The target path of a file descriptor: the explicit override when
present, otherwise the derived rewrite. -/
def fileTarget (f : RegistryFile) : String :=
  match f.target with
  | some t => t
  | none => rewriteTarget f.path f.type

/-- A file of a per-item output document, with the literal source bytes
inlined. -/
structure EmittedFile where
  path : String
  type : String
  content : String
deriving DecidableEq, Repr

/-- A self-contained per-item output document. -/
structure ItemDoc where
  name : String
  type : String
  dependencies : List String
  registryDependencies : List String
  files : List EmittedFile
deriving DecidableEq, Repr

/-- The aggregate manifest: registry metadata plus every item (direct
dependency lists only) in sorted-by-name order. -/
structure Manifest where
  name : String
  homepage : String
  items : List Item
deriving DecidableEq, Repr

/-- The modelled source tree: an association list from path to content.
Reading a path absent from the tree fails. -/
def readFile : List (String × String) → String → Option String
  | [], _ => none
  | (q, c) :: rest, p => if q = p then some c else readFile rest p

/-- Modelled from the spec: reading and inlining the member files of one
item (spec section 4.5); the first unreadable source file aborts with a
`FileReadError`. -/
def emitFiles (fs : List (String × String)) : List RegistryFile → Except BuildError (List EmittedFile)
  | [] => .ok []
  | f :: rest =>
      match readFile fs f.path with
      | none => .error (.FileReadError f.path)
      | some c =>
          match emitFiles fs rest with
          | .error e => .error e
          | .ok out => .ok ({ path := fileTarget f, type := f.type, content := c } :: out)

/-- Modelled from the spec: the per-item output document of section 4.5,
carrying the item's metadata, its direct dependency lists and its files
with inlined content. -/
def emitItem (fs : List (String × String)) (it : Item) : Except BuildError ItemDoc :=
  match emitFiles fs it.files with
  | .error e => .error e
  | .ok outFiles =>
      .ok { name := it.name, type := it.type, dependencies := it.dependencies
          , registryDependencies := it.registryDependencies, files := outFiles }

/-- Modelled from the spec: emission of every per-item document; any
failure aborts the whole emission. -/
def emitDocs (fs : List (String × String)) : List Item → Except BuildError (List ItemDoc)
  | [] => .ok []
  | it :: rest =>
      match emitItem fs it with
      | .error e => .error e
      | .ok doc =>
          match emitDocs fs rest with
          | .error e => .error e
          | .ok docs => .ok (doc :: docs)

/-- Name order on items, for the sorted aggregate manifest. -/
def itemLe (a b : Item) : Prop := strLe a.name b.name

instance : DecidableRel itemLe := fun a b => by unfold itemLe; infer_instance

/-- Sort items by name. -/
def sortItemsByName (l : List Item) : List Item := List.insertionSort itemLe l

/-- Rewrite the file paths of one item to the installer's target layout. -/
def rewriteItemFiles (it : Item) : Item :=
  { it with files := it.files.map (fun f => { f with path := fileTarget f }) }

/-- Modelled from the spec: the aggregate manifest of section 4.5 — the
registry metadata of the README plus every item with rewritten paths and
direct dependency lists only, in sorted-by-name order. -/
def emitManifest (reg : List Item) : Manifest :=
  { name := "shadercn/webgl", homepage := "https://shadercn.dev"
  , items := sortItemsByName (reg.map rewriteItemFiles) }

/-- Modelled from the spec: the Manifest Emitter of section 4.5.  Both
output kinds are produced together; a read failure on any source file
yields an error and therefore no output document at all — emission is
all-or-nothing. -/
def emitAll (fs : List (String × String)) (reg : List Item) :
    Except BuildError (Manifest × List ItemDoc) :=
  match emitDocs fs reg with
  | .error e => .error e
  | .ok docs => .ok (emitManifest reg, docs)

/-- Resolve every registry item in turn, propagating the first error. -/
def resolveAllGo (reg : List Item) : List String → Except BuildError Unit
  | [] => .ok ()
  | n :: rest =>
      match resolve reg n with
      | .error e => .error e
      | .ok _ => resolveAllGo reg rest

/-- Modelled from the spec: the strict one-way pipeline of section 2 —
Aggregator, then Resolver, then Validator, then Rewriter and Emitter; a
failure at any stage aborts the run and nothing is published. -/
def buildPipeline (fs : List (String × String)) (groups : List (List Item)) :
    Except BuildError (Manifest × List ItemDoc) :=
  match aggregate groups with
  | .error e => .error e
  | .ok reg =>
      match resolveAllGo reg (namesOf reg) with
      | .error e => .error e
      | .ok _ =>
          match validateRegistry (fs.map Prod.fst) reg with
          | e :: _ => .error e
          | [] => emitAll fs reg

/-- A registry whose whole catalog aggregates and resolves without error:
the boolean check behind claim C10. -/
def registryBuildsOk (groups : List (List Item)) : Bool :=
  match aggregate groups with
  | .error _ => false
  | .ok reg => (namesOf reg).all (fun n => isOk (resolve reg n))

/-- Example registry with a two-element dependency cycle (a and b depend
on each other). -/
def cycReg : List Item :=
  [ { name := "a", type := "registry:hook", registryDependencies := ["b"]
    , files := [{ path := "registry/webgl/hooks/a.ts", type := "registry:hook" }] }
  , { name := "b", type := "registry:hook", registryDependencies := ["a"]
    , files := [{ path := "registry/webgl/hooks/b.ts", type := "registry:hook" }] } ]

/-- Example registry with both defects at once: the target a lists the
missing name emm before its edge into the a-b cycle. -/
def cycMissingReg : List Item :=
  [ { name := "a", type := "registry:hook", registryDependencies := ["emm", "b"]
    , files := [{ path := "registry/webgl/hooks/a.ts", type := "registry:hook" }] }
  , { name := "b", type := "registry:hook", registryDependencies := ["a"]
    , files := [{ path := "registry/webgl/hooks/b.ts", type := "registry:hook" }] } ]

/-- Example diamond registry: a depends on b and c, both depend on d; d is
reached twice (second time as an already visited name, never on the
current path). -/
def diamondReg : List Item :=
  [ { name := "a", type := "registry:hook", registryDependencies := ["b", "c"]
    , files := [{ path := "registry/webgl/hooks/a.ts", type := "registry:hook" }] }
  , { name := "b", type := "registry:hook", registryDependencies := ["d"]
    , files := [{ path := "registry/webgl/hooks/b.ts", type := "registry:hook" }] }
  , { name := "c", type := "registry:hook", registryDependencies := ["d"]
    , files := [{ path := "registry/webgl/hooks/c.ts", type := "registry:hook" }] }
  , { name := "d", type := "registry:lib"
    , files := [{ path := "registry/webgl/lib/d.ts", type := "registry:lib" }] } ]

/-- Example registry whose target x lists two missing dependencies. -/
def twoMissingReg : List Item :=
  [ { name := "x", type := "registry:hook", registryDependencies := ["y1", "y2"]
    , files := [{ path := "registry/webgl/hooks/x.ts", type := "registry:hook" }] } ]

/-- The list L is a topological order over the registry graph: every
entry is a declared item and all of its registry dependencies occur at
strictly earlier positions. -/
def TopoOk (reg : List Item) (L : List String) : Prop :=
  ∀ i : Nat, ∀ h : i < L.length, ∃ it, lookupItem reg (L.get ⟨i, h⟩) = some it ∧
    ∀ d ∈ it.registryDependencies,
      ∃ j : Nat, ∃ hj : j < L.length, j < i ∧ L.get ⟨j, hj⟩ = d

/-- x occurs at a strictly earlier position than y in l. -/
def Precedes (l : List String) (x y : String) : Prop :=
  ∃ i j : Nat, ∃ hi : i < l.length, ∃ hj : j < l.length,
    i < j ∧ l.get ⟨i, hi⟩ = x ∧ l.get ⟨j, hj⟩ = y

/-- The aggregated repository registry: the flat merge of the three
declaration groups, in declaration order. -/
def repoRegistry : List Item := hooks ++ components ++ lib

/-- One run of the resolver; the run index is irrelevant because the
resolver is a pure function of the registry and the target. -/
def runResolve (reg : List Item) (target : String) (_run : Nat) : Except BuildError Resolved :=
  resolve reg target

/-- Example five-item registry used to exercise the all-or-nothing
emission contract. -/
def fiveReg : List Item :=
  [ { name := "i1", type := "registry:lib", files := [{ path := "p1", type := "registry:lib" }] }
  , { name := "i2", type := "registry:lib", files := [{ path := "p2", type := "registry:lib" }] }
  , { name := "i3", type := "registry:lib", files := [{ path := "p3", type := "registry:lib" }] }
  , { name := "i4", type := "registry:lib", files := [{ path := "p4", type := "registry:lib" }] }
  , { name := "i5", type := "registry:lib", files := [{ path := "p5", type := "registry:lib" }] } ]

/-- A source tree holding the first four files of `fiveReg` but not the
fifth. -/
def fourFileTree : List (String × String) :=
  [("p1", "c1"), ("p2", "c2"), ("p3", "c3"), ("p4", "c4")]

/-- Two declaration groups that both declare an item named foo. -/
def dupGroups : List (List Item) :=
  [ [{ name := "foo", type := "registry:hook"
     , files := [{ path := "registry/webgl/hooks/foo.ts", type := "registry:hook" }] }]
  , [{ name := "foo", type := "registry:lib"
     , files := [{ path := "registry/webgl/lib/foo.ts", type := "registry:lib" }] }] ]

/-- Example item violating several schema checks at once (uppercase name,
unknown kind, no files). -/
def badItem : Item :=
  { name := "Foo", type := "registry:nope", files := [] }

theorem charListLe_total : ∀ as bs, charListLe as bs = true ∨ charListLe bs as = true := by
  intro as
  induction as with
  | nil => intro bs; left; rfl
  | cons a at_ ih =>
    intro bs
    cases bs with
    | nil => right; rfl
    | cons b bt =>
      by_cases hab : a = b
      · subst hab
        rcases ih bt with h | h
        · left; simpa [charListLe] using h
        · right; simpa [charListLe] using h
      · rcases lt_or_gt_of_ne hab with h | h
        · left; simp [charListLe, hab, h]
        · right; simp [charListLe, Ne.symm hab, h, not_lt_of_gt h]

theorem charListLe_trans : ∀ as bs cs, charListLe as bs = true → charListLe bs cs = true →
    charListLe as cs = true := by
  intro as
  induction as with
  | nil => intro bs cs _ _; rfl
  | cons a at_ ih =>
    intro bs cs h1 h2
    cases bs with
    | nil => simp [charListLe] at h1
    | cons b bt =>
      cases cs with
      | nil => simp [charListLe] at h2
      | cons c ct =>
        by_cases hab : a = b <;> by_cases hbc : b = c
        · subst hab; subst hbc
          simp only [charListLe, if_pos rfl] at h1 h2 ⊢
          exact ih bt ct h1 h2
        · subst hab
          simp only [charListLe, if_pos rfl] at h1
          simpa [charListLe, hbc] using h2
        · subst hbc
          simpa [charListLe, hab] using h1
        · simp only [charListLe, if_neg hab] at h1
          simp only [charListLe, if_neg hbc] at h2
          have hac : a < c := lt_trans (of_decide_eq_true h1) (of_decide_eq_true h2)
          have hne : a ≠ c := ne_of_lt hac
          simp [charListLe, hne, hac]

theorem charListLe_antisymm : ∀ as bs, charListLe as bs = true → charListLe bs as = true →
    as = bs := by
  intro as
  induction as with
  | nil =>
    intro bs h1 h2
    cases bs with
    | nil => rfl
    | cons b bt => simp [charListLe] at h2
  | cons a at_ ih =>
    intro bs h1 h2
    cases bs with
    | nil => simp [charListLe] at h1
    | cons b bt =>
      by_cases hab : a = b
      · subst hab
        simp only [charListLe, if_pos rfl] at h1 h2
        rw [ih bt h1 h2]
      · simp only [charListLe, if_neg hab, decide_eq_true_eq] at h1
        simp only [charListLe, if_neg (Ne.symm hab), decide_eq_true_eq] at h2
        exact absurd h2 (not_lt_of_gt h1)

instance : IsTotal String strLe := ⟨fun a b => charListLe_total a.data b.data⟩

instance : IsTrans String strLe := ⟨fun a b c => charListLe_trans a.data b.data c.data⟩

instance : IsAntisymm String strLe := ⟨fun a b h1 h2 => by
  cases a with
  | mk da =>
    cases b with
    | mk db => exact congrArg String.mk (charListLe_antisymm da db h1 h2)⟩

theorem sortStrings_perm (l : List String) : List.Perm (sortStrings l) l :=
  List.perm_insertionSort strLe l

theorem sortStrings_sorted (l : List String) : List.Sorted strLe (sortStrings l) :=
  List.sorted_insertionSort strLe l

theorem sortStrings_eq_of_perm {l1 l2 : List String} (h : List.Perm l1 l2) :
    sortStrings l1 = sortStrings l2 :=
  List.eq_of_perm_of_sorted ((sortStrings_perm l1).trans (h.trans (sortStrings_perm l2).symm))
    (sortStrings_sorted l1) (sortStrings_sorted l2)

theorem lookupItem_mem : ∀ (reg : List Item) (n : String) (it : Item),
    lookupItem reg n = some it → it ∈ reg ∧ it.name = n := by
  intro reg
  induction reg with
  | nil => intro n it h; simp [lookupItem] at h
  | cons hd tl ih =>
    intro n it h
    by_cases hn : hd.name = n
    · simp [lookupItem, hn] at h
      subst h
      exact ⟨List.mem_cons_self hd tl, hn⟩
    · simp [lookupItem, hn] at h
      obtain ⟨hm, he⟩ := ih n it h
      exact ⟨List.mem_cons_of_mem hd hm, he⟩

theorem lookupItem_isSome_of_mem : ∀ (reg : List Item) (n : String),
    n ∈ namesOf reg → (lookupItem reg n).isSome := by
  intro reg
  induction reg with
  | nil => intro n h; simp [namesOf] at h
  | cons hd tl ih =>
    intro n h
    by_cases hn : hd.name = n
    · simp [lookupItem, hn]
    · simp [namesOf] at h
      rcases h with h | h
      · exact absurd h.symm hn
      · simp [lookupItem, hn]
        exact ih n (by simpa [namesOf] using h)

theorem mem_namesOf_of_lookup : ∀ (reg : List Item) (n : String) (it : Item),
    lookupItem reg n = some it → n ∈ namesOf reg := by
  intro reg n it h
  obtain ⟨hm, he⟩ := lookupItem_mem reg n it h
  subst he
  exact List.mem_map_of_mem Item.name hm

theorem aggregateGo_ok : ∀ (l acc r : List Item), aggregateGo acc l = .ok r → r = acc ++ l := by
  intro l
  induction l with
  | nil => intro acc r h; simp [aggregateGo] at h; simp [h.symm]
  | cons it rest ih =>
    intro acc r h
    by_cases hd : it.name ∈ acc.map Item.name
    · simp [aggregateGo, hd] at h
    · simp [aggregateGo, hd] at h
      have := ih (acc ++ [it]) r h
      simpa [List.append_assoc] using this

theorem aggregateGo_dup_error :
    ∀ (l acc : List Item), (acc.map Item.name).Nodup →
      ¬ (((acc ++ l).map Item.name).Nodup) →
      ∃ n, aggregateGo acc l = .error (.DuplicateNameError n) := by
  intro l
  induction l with
  | nil => intro acc hacc hdup; simp at hdup; exact absurd hacc hdup
  | cons it rest ih =>
    intro acc hacc hdup
    by_cases hd : it.name ∈ acc.map Item.name
    · exact ⟨it.name, by simp [aggregateGo, hd]⟩
    · have hacc' : ((acc ++ [it]).map Item.name).Nodup := by
        simp [List.nodup_append, hacc, hd]
      have hdup' : ¬ ((((acc ++ [it]) ++ rest).map Item.name).Nodup) := by
        simpa [List.append_assoc] using hdup
      obtain ⟨n, hn⟩ := ih (acc ++ [it]) hacc' hdup'
      exact ⟨n, by simpa [aggregateGo, hd] using hn⟩

theorem length_filter_mono {α : Type} (p q : α → Bool) (l : List α)
    (h : ∀ x, p x = true → q x = true) :
    (l.filter p).length ≤ (l.filter q).length := by
  induction l with
  | nil => simp
  | cons a t ih =>
    by_cases hpa : p a = true
    · have hqa : q a = true := h a hpa
      simpa [List.filter, hpa, hqa] using Nat.succ_le_succ ih
    · have hpa' : p a = false := by
        cases hp : p a
        · rfl
        · exact absurd hp hpa
      cases hqa : q a
      · simpa [List.filter, hpa', hqa] using ih
      · simp only [List.filter, hpa', hqa]
        exact Nat.le_succ_of_le ih

theorem filter_cons_path_lt (n : String) (path : List String) (hnp : n ∉ path) :
    ∀ l : List String, n ∈ l →
      (l.filter (fun x => decide (x ∉ n :: path))).length <
        (l.filter (fun x => decide (x ∉ path))).length := by
  intro l
  induction l with
  | nil => intro h; simp at h
  | cons a t ih =>
    intro hmem
    by_cases han : a = n
    · subst han
      have hp1 : (decide (a ∉ a :: path)) = false := by simp
      have hq1 : (decide (a ∉ path)) = true := by simpa using hnp
      simp only [List.filter, hp1, hq1]
      have hmono : (t.filter (fun x => decide (x ∉ a :: path))).length ≤
          (t.filter (fun x => decide (x ∉ path))).length := by
        apply length_filter_mono
        intro x hx
        simp only [decide_eq_true_eq] at hx ⊢
        intro hc
        exact hx (List.mem_cons_of_mem a hc)
      exact Nat.lt_succ_of_le hmono
    · have hmem' : n ∈ t := by
        rcases List.mem_cons.mp hmem with h | h
        · exact absurd h.symm han
        · exact h
      have heq : (decide (a ∉ n :: path)) = (decide (a ∉ path)) := by
        simp [List.mem_cons, han]
      cases hq : (decide (a ∉ path)) with
      | false =>
        have hp : (decide (a ∉ n :: path)) = false := heq.trans hq
        simp only [List.filter, hp, hq]
        exact ih hmem'
      | true =>
        have hp : (decide (a ∉ n :: path)) = true := heq.trans hq
        simp only [List.filter, hp, hq]
        exact Nat.succ_lt_succ (ih hmem')

theorem remCount_lt (reg : List Item) (n : String) (path : List String)
    (hmem : n ∈ namesOf reg) (hnp : n ∉ path) :
    remCount reg (n :: path) < remCount reg path :=
  filter_cons_path_lt n path hnp (namesOf reg).dedup (List.mem_dedup.mpr hmem)

theorem remCount_nil (reg : List Item) : remCount reg [] = (namesOf reg).dedup.length := by
  simp [remCount]

theorem foldResolve_no_depth (f : Resolved → String → Except BuildError Resolved)
    (ds : List String) :
    ∀ acc, (∀ a d, d ∈ ds → f a d ≠ .error .ResolutionDepthExceeded) →
      foldResolve f acc ds ≠ .error .ResolutionDepthExceeded := by
  induction ds with
  | nil => intro acc _ h; simp [foldResolve] at h
  | cons d rest ih =>
    intro acc hsteps h
    rw [foldResolve] at h
    cases hstep : f acc d with
    | error e =>
      rw [hstep] at h
      simp at h
      subst h
      exact hsteps acc d (List.mem_cons_self d rest) hstep
    | ok acc' =>
      rw [hstep] at h
      exact ih acc' (fun a x hx => hsteps a x (List.mem_cons_of_mem d hx)) h

theorem resolveGo_no_depth (reg : List Item) :
    ∀ fuel path acc ref n, remCount reg path < fuel →
      resolveGo reg fuel path acc ref n ≠ .error .ResolutionDepthExceeded := by
  intro fuel
  induction fuel with
  | zero => intro path acc ref n h; exact absurd h (Nat.not_lt_zero _)
  | succ fuel ih =>
    intro path acc ref n h hcontra
    rw [resolveGo] at hcontra
    by_cases hvis : n ∈ acc.closure
    · simp [hvis] at hcontra
    · by_cases hpath : n ∈ path
      · simp [hvis, hpath] at hcontra
      · cases hlook : lookupItem reg n with
        | none => simp [hvis, hpath, hlook] at hcontra
        | some item =>
          simp only [if_neg hvis, if_neg hpath, hlook] at hcontra
          cases hfold : foldResolve (fun a d => resolveGo reg fuel (n :: path) a n d)
              acc item.registryDependencies with
          | error e =>
            rw [hfold] at hcontra
            simp at hcontra
            subst hcontra
            refine foldResolve_no_depth _ _ acc ?_ hfold
            intro a d _
            apply ih
            have hmemn : n ∈ namesOf reg := mem_namesOf_of_lookup reg n item hlook
            exact lt_of_lt_of_le (remCount_lt reg n path hmemn hpath) (Nat.lt_succ_iff.mp h)
          | ok acc1 =>
            rw [hfold] at hcontra
            simp at hcontra

theorem foldResolve_error_step (f : Resolved → String → Except BuildError Resolved)
    (ds : List String) :
    ∀ acc e, foldResolve f acc ds = .error e → ∃ d ∈ ds, ∃ a, f a d = .error e := by
  induction ds with
  | nil => intro acc e h; simp [foldResolve] at h
  | cons d rest ih =>
    intro acc e h
    rw [foldResolve] at h
    cases hstep : f acc d with
    | error e' =>
      rw [hstep] at h
      simp at h
      subst h
      exact ⟨d, List.mem_cons_self d rest, acc, hstep⟩
    | ok acc' =>
      rw [hstep] at h
      obtain ⟨d', hd', a, ha⟩ := ih acc' e h
      exact ⟨d', List.mem_cons_of_mem d hd', a, ha⟩

theorem resolveGo_error_kinds (reg : List Item) :
    ∀ fuel path acc ref n e, resolveGo reg fuel path acc ref n = .error e →
      (∃ c, e = .CyclicDependencyError c) ∨ (∃ m r, e = .UnresolvedDependencyError m r) ∨
        e = .ResolutionDepthExceeded := by
  intro fuel
  induction fuel with
  | zero =>
    intro path acc ref n e h
    rw [resolveGo] at h
    simp at h
    exact Or.inr (Or.inr h.symm)
  | succ fuel ih =>
    intro path acc ref n e h
    rw [resolveGo] at h
    by_cases hvis : n ∈ acc.closure
    · simp [hvis] at h
    · by_cases hpath : n ∈ path
      · simp [hvis, hpath] at h
        exact Or.inl ⟨n :: path, h.symm⟩
      · cases hlook : lookupItem reg n with
        | none =>
          simp [hvis, hpath, hlook] at h
          exact Or.inr (Or.inl ⟨n, ref, h.symm⟩)
        | some item =>
          simp only [if_neg hvis, if_neg hpath, hlook] at h
          cases hfold : foldResolve (fun a d => resolveGo reg fuel (n :: path) a n d)
              acc item.registryDependencies with
          | error e' =>
            rw [hfold] at h
            simp at h
            obtain ⟨d, _, a, ha⟩ := foldResolve_error_step _ _ acc e' hfold
            have hk := ih (n :: path) a n d e' ha
            rwa [h] at hk
          | ok acc1 =>
            rw [hfold] at h
            simp at h

theorem resolveGo_unresolved_inner (reg : List Item) :
    ∀ fuel path acc ref n m r,
      (∃ itr, lookupItem reg ref = some itr ∧ n ∈ itr.registryDependencies) →
      resolveGo reg fuel path acc ref n = .error (.UnresolvedDependencyError m r) →
      lookupItem reg m = none ∧
        ∃ itr, lookupItem reg r = some itr ∧ m ∈ itr.registryDependencies := by
  intro fuel
  induction fuel with
  | zero =>
    intro path acc ref n m r _ h
    rw [resolveGo] at h
    simp at h
  | succ fuel ih =>
    intro path acc ref n m r href h
    rw [resolveGo] at h
    by_cases hvis : n ∈ acc.closure
    · simp [hvis] at h
    · by_cases hpath : n ∈ path
      · simp [hvis, hpath] at h
      · cases hlook : lookupItem reg n with
        | none =>
          simp [hvis, hpath, hlook] at h
          obtain ⟨hm, hr⟩ := h
          subst hm; subst hr
          exact ⟨hlook, href⟩
        | some item =>
          simp only [if_neg hvis, if_neg hpath, hlook] at h
          cases hfold : foldResolve (fun a d => resolveGo reg fuel (n :: path) a n d)
              acc item.registryDependencies with
          | error e' =>
            rw [hfold] at h
            simp at h
            rw [h] at hfold
            obtain ⟨d, hd, a, ha⟩ :=
              foldResolve_error_step _ _ acc (.UnresolvedDependencyError m r) hfold
            exact ih (n :: path) a n d m r ⟨item, hlook, hd⟩ ha
          | ok acc1 =>
            rw [hfold] at h
            simp at h

theorem get_append_of_lt {α : Type} (l1 l2 : List α) (i : Nat) (h : i < l1.length)
    (h2 : i < (l1 ++ l2).length) : (l1 ++ l2).get ⟨i, h2⟩ = l1.get ⟨i, h⟩ := by
  simp [List.getElem_append, h]

theorem get_concat_self {α : Type} (l : List α) (a : α) (h : l.length < (l ++ [a]).length) :
    (l ++ [a]).get ⟨l.length, h⟩ = a := by
  simp

theorem topoOk_append (reg : List Item) (L : List String) (n : String) (item : Item)
    (hL : TopoOk reg L) (hlook : lookupItem reg n = some item)
    (hdeps : ∀ d ∈ item.registryDependencies, d ∈ L) :
    TopoOk reg (L ++ [n]) := by
  intro i h
  by_cases hi : i < L.length
  · obtain ⟨it, hlk, hds⟩ := hL i hi
    refine ⟨it, by rw [get_append_of_lt L [n] i hi h]; exact hlk, ?_⟩
    intro d hd
    obtain ⟨j, hj, hji, hgj⟩ := hds d hd
    have hj2 : j < (L ++ [n]).length := by simp; omega
    exact ⟨j, hj2, hji, by rw [get_append_of_lt L [n] j hj hj2]; exact hgj⟩
  · have hieq : i = L.length := by
      simp at h
      omega
    subst hieq
    refine ⟨item, by rw [get_concat_self L n h]; exact hlook, ?_⟩
    intro d hd
    obtain ⟨⟨j, hj⟩, hgj⟩ := List.mem_iff_get.mp (hdeps d hd)
    have hj2 : j < (L ++ [n]).length := by simp; omega
    exact ⟨j, hj2, hj, by rw [get_append_of_lt L [n] j hj hj2]; exact hgj⟩

theorem resolveGo_ok_inv (reg : List Item) :
    ∀ fuel path acc ref n acc',
      resolveGo reg fuel path acc ref n = .ok acc' →
      TopoOk reg acc.closure → acc.closure.Nodup →
      ∃ ext, acc'.closure = acc.closure ++ ext ∧ TopoOk reg acc'.closure ∧
        acc'.closure.Nodup ∧ n ∈ acc'.closure ∧ ∀ x ∈ ext, x ∉ path := by
  intro fuel
  induction fuel with
  | zero =>
    intro path acc ref n acc' h
    rw [resolveGo] at h
    simp at h
  | succ fuel ih =>
    intro path acc ref n acc' h htopo hnodup
    rw [resolveGo] at h
    by_cases hvis : n ∈ acc.closure
    · simp [hvis] at h
      subst h
      exact ⟨[], by simp, htopo, hnodup, hvis, by simp⟩
    · by_cases hpath : n ∈ path
      · simp [hvis, hpath] at h
      · cases hlook : lookupItem reg n with
        | none => simp [hvis, hpath, hlook] at h
        | some item =>
          simp only [if_neg hvis, if_neg hpath, hlook] at h
          have hfoldinv : ∀ ds acc0 acc1,
              foldResolve (fun a d => resolveGo reg fuel (n :: path) a n d) acc0 ds = .ok acc1 →
              TopoOk reg acc0.closure → acc0.closure.Nodup →
              ∃ ext, acc1.closure = acc0.closure ++ ext ∧ TopoOk reg acc1.closure ∧
                acc1.closure.Nodup ∧ (∀ d ∈ ds, d ∈ acc1.closure) ∧
                ∀ x ∈ ext, x ∉ (n :: path) := by
            intro ds
            induction ds with
            | nil =>
              intro acc0 acc1 hf ht hn0
              rw [foldResolve] at hf
              simp at hf
              subst hf
              exact ⟨[], by simp, ht, hn0, by simp, by simp⟩
            | cons d rest ihds =>
              intro acc0 acc1 hf ht hn0
              rw [foldResolve] at hf
              cases hstep : resolveGo reg fuel (n :: path) acc0 n d with
              | error e => rw [hstep] at hf; simp at hf
              | ok accm =>
                rw [hstep] at hf
                obtain ⟨e1, he1, ht1, hn1, hmem1, hx1⟩ :=
                  ih (n :: path) acc0 n d accm hstep ht hn0
                obtain ⟨e2, he2, ht2, hn2, hmem2, hx2⟩ := ihds accm acc1 hf ht1 hn1
                refine ⟨e1 ++ e2, ?_, ht2, hn2, ?_, ?_⟩
                · rw [he2, he1, List.append_assoc]
                · intro d' hd'
                  rcases List.mem_cons.mp hd' with hd' | hd'
                  · subst hd'
                    rw [he2]
                    exact List.mem_append_left _ hmem1
                  · exact hmem2 d' hd'
                · intro x hx
                  rcases List.mem_append.mp hx with hx | hx
                  · exact hx1 x hx
                  · exact hx2 x hx
          cases hfold : foldResolve (fun a d => resolveGo reg fuel (n :: path) a n d)
              acc item.registryDependencies with
          | error e => rw [hfold] at h; simp at h
          | ok acc1 =>
            rw [hfold] at h
            simp at h
            subst h
            obtain ⟨e1, he1, ht1, hn1, hdeps1, hx1⟩ :=
              hfoldinv item.registryDependencies acc acc1 hfold htopo hnodup
            have hacn : n ∉ acc1.closure := by
              rw [he1]
              intro hc
              rcases List.mem_append.mp hc with hc | hc
              · exact hvis hc
              · exact hx1 n hc (List.mem_cons_self n path)
            refine ⟨e1 ++ [n], ?_, ?_, ?_, ?_, ?_⟩
            · show acc1.closure ++ [n] = acc.closure ++ (e1 ++ [n])
              rw [he1, List.append_assoc]
            · exact topoOk_append reg acc1.closure n item ht1 hlook hdeps1
            · show (acc1.closure ++ [n]).Nodup
              simp [List.nodup_append, hn1, hacn]
            · exact List.mem_append_right _ (List.mem_cons_self n [])
            · intro x hx
              rcases List.mem_append.mp hx with hx | hx
              · exact fun hc => hx1 x hx (List.mem_cons_of_mem n hc)
              · rcases List.mem_cons.mp hx with hx | hx
                · subst hx; exact hpath
                · simp at hx

theorem resolve_ok_inv (reg : List Item) (target : String) (res : Resolved)
    (h : resolve reg target = .ok res) :
    TopoOk reg res.closure ∧ res.closure.Nodup ∧ target ∈ res.closure := by
  unfold resolve at h
  obtain ⟨ext, he, ht, hn, hm, _⟩ :=
    resolveGo_ok_inv reg ((namesOf reg).dedup.length + 1) [] ⟨[], []⟩ target target res h
      (by intro i hi; simp at hi) (by simp)
  exact ⟨ht, hn, hm⟩

theorem edge_iff (reg : List Item) (a b : String) :
    Edge reg a b ↔ ∃ it, lookupItem reg a = some it ∧ b ∈ it.registryDependencies := by
  unfold Edge depsOf
  cases h : lookupItem reg a <;> simp

theorem topoOk_edge_precedes (reg : List Item) (L : List String) (hL : TopoOk reg L)
    (a b : String) (hab : Edge reg a b) :
    ∀ i, ∀ hi : i < L.length, L.get ⟨i, hi⟩ = a →
      ∃ j, ∃ hj : j < L.length, j < i ∧ L.get ⟨j, hj⟩ = b := by
  intro i hi hgi
  obtain ⟨it, hlk, hds⟩ := hL i hi
  rw [hgi] at hlk
  obtain ⟨it', hlk', hmem'⟩ := (edge_iff reg a b).mp hab
  rw [hlk] at hlk'
  obtain rfl : it = it' := by injection hlk'
  exact hds b hmem'

theorem topoOk_closed (reg : List Item) (L : List String) (hL : TopoOk reg L)
    (a b : String) (ha : a ∈ L) (hab : Edge reg a b) : b ∈ L := by
  obtain ⟨⟨i, hi⟩, hgi⟩ := List.mem_iff_get.mp ha
  obtain ⟨j, hj, _, hgj⟩ := topoOk_edge_precedes reg L hL a b hab i hi hgi
  rw [← hgj]
  exact List.get_mem L j hj

theorem reach_mem_closure (reg : List Item) (L : List String) (hL : TopoOk reg L)
    (t x : String) (ht : t ∈ L) (hr : Relation.ReflTransGen (Edge reg) t x) : x ∈ L := by
  induction hr with
  | refl => exact ht
  | tail _ hedge ih => exact topoOk_closed reg L hL _ _ ih hedge

theorem topoOk_transGen_precedes (reg : List Item) (L : List String) (hL : TopoOk reg L)
    (a b : String) (hab : Relation.TransGen (Edge reg) a b) :
    ∀ i, ∀ hi : i < L.length, L.get ⟨i, hi⟩ = a →
      ∃ j, ∃ hj : j < L.length, j < i ∧ L.get ⟨j, hj⟩ = b := by
  induction hab with
  | single h =>
    intro i hi hgi
    exact topoOk_edge_precedes reg L hL _ _ h i hi hgi
  | tail _ hedge ih =>
    intro i hi hgi
    obtain ⟨j, hj, hji, hgj⟩ := ih i hi hgi
    obtain ⟨k, hk, hkj, hgk⟩ := topoOk_edge_precedes reg L hL _ _ hedge j hj hgj
    exact ⟨k, hk, lt_trans hkj hji, hgk⟩

theorem ok_no_reachable_cycle (reg : List Item) (target : String) (res : Resolved)
    (h : resolve reg target = .ok res) :
    ∀ x, Relation.ReflTransGen (Edge reg) target x → ¬ Relation.TransGen (Edge reg) x x := by
  obtain ⟨htopo, hnodup, htmem⟩ := resolve_ok_inv reg target res h
  intro x hreach hcyc
  have hx : x ∈ res.closure := reach_mem_closure reg res.closure htopo target x htmem hreach
  obtain ⟨⟨i, hi⟩, hgi⟩ := List.mem_iff_get.mp hx
  obtain ⟨j, hj, hji, hgj⟩ := topoOk_transGen_precedes reg res.closure htopo x x hcyc i hi hgi
  have : (⟨j, hj⟩ : Fin res.closure.length) = ⟨i, hi⟩ :=
    (List.Nodup.get_inj_iff hnodup).mp (hgj.trans hgi.symm)
  have : j = i := by injection this
  omega

theorem topoOk_isSome_of_mem (reg : List Item) (L : List String) (hL : TopoOk reg L)
    (a : String) (ha : a ∈ L) : (lookupItem reg a).isSome := by
  obtain ⟨⟨i, hi⟩, hgi⟩ := List.mem_iff_get.mp ha
  obtain ⟨it, hlk, _⟩ := hL i hi
  rw [hgi] at hlk
  rw [hlk]
  rfl

theorem transGen_first_edge {α : Type} {r : α → α → Prop} {a b : α}
    (h : Relation.TransGen r a b) : ∃ y, r a y := by
  induction h with
  | single h => exact ⟨_, h⟩
  | tail _ _ ih => exact ih

theorem edge_isSome (reg : List Item) (a b : String) (h : Edge reg a b) :
    (lookupItem reg a).isSome := by
  obtain ⟨it, hlk, _⟩ := (edge_iff reg a b).mp h
  rw [hlk]
  rfl

theorem resolve_error_cases (reg : List Item) (t : String) (e : BuildError)
    (h : resolve reg t = .error e) :
    (∃ c, e = .CyclicDependencyError c) ∨
      (∃ m r, e = .UnresolvedDependencyError m r ∧ lookupItem reg m = none ∧
        (m = t ∧ r = t ∨ ∃ itr, lookupItem reg r = some itr ∧ m ∈ itr.registryDependencies)) := by
  unfold resolve at h
  rw [resolveGo] at h
  have hvis : t ∉ (⟨[], []⟩ : Resolved).closure := by simp
  have hpath : t ∉ ([] : List String) := by simp
  cases hlook : lookupItem reg t with
  | none =>
    simp only [if_neg hvis, if_neg hpath, hlook] at h
    simp at h
    exact Or.inr ⟨t, t, h.symm, hlook, Or.inl ⟨rfl, rfl⟩⟩
  | some item =>
    simp only [if_neg hvis, if_neg hpath, hlook] at h
    cases hfold : foldResolve
        (fun a d => resolveGo reg ((namesOf reg).dedup.length) (t :: []) a t d)
        ⟨[], []⟩ item.registryDependencies with
    | error e' =>
      rw [hfold] at h
      simp at h
      obtain ⟨d, hd, a, ha⟩ := foldResolve_error_step _ _ ⟨[], []⟩ e' hfold
      have htn : t ∈ namesOf reg := mem_namesOf_of_lookup reg t item hlook
      have hlt : remCount reg (t :: []) < (namesOf reg).dedup.length := by
        have h1 := remCount_lt reg t [] htn (by simp)
        rw [remCount_nil reg] at h1
        exact h1
      rcases resolveGo_error_kinds reg _ _ a t d e' ha with ⟨c, hc⟩ | ⟨m, r, hu⟩ | hdep
      · exact Or.inl ⟨c, by rw [← h, hc]⟩
      · rw [hu] at ha
        obtain ⟨hnone, hcase⟩ :=
          resolveGo_unresolved_inner reg _ _ a t d m r ⟨item, hlook, hd⟩ ha
        exact Or.inr ⟨m, r, by rw [← h, hu], hnone, Or.inr hcase⟩
      · rw [hdep] at ha
        exact absurd ha (resolveGo_no_depth reg _ _ a t d hlt)
    | ok acc1 =>
      rw [hfold] at h
      simp at h

/-- Claim C2, counterexample: in a registry where the target lists a
missing dependency before its edge into a two-element cycle, the cycle is
reachable from the target yet resolution fails with an
UnresolvedDependencyError, not a CyclicDependencyError — so the claim as
universally stated over every registry with a reachable cycle is false. -/
theorem claim_C2_cex :
    resolve cycMissingReg "a" = .error (.UnresolvedDependencyError "emm" "a") ∧
      (∃ x, Relation.ReflTransGen (Edge cycMissingReg) "a" x ∧
        Relation.TransGen (Edge cycMissingReg) x x) := by
  constructor
  · decide
  · have hab : Edge cycMissingReg "a" "b" := by decide
    have hba : Edge cycMissingReg "b" "a" := by decide
    exact ⟨"a", Relation.ReflTransGen.refl,
      Relation.TransGen.tail (Relation.TransGen.single hab) hba⟩

/-- Claim C2 (amended): in every registry whose registryDependencies
entries all resolve, if a dependency cycle is reachable from the target
then resolution fails with a CyclicDependencyError; resolution always
terminates (the resolver is a total function); and the error is raised
only on revisiting a name on the current path — a merely visited name
does not error, as the diamond registry shows (d is reached twice and the
resolution still succeeds). -/
theorem claim_C2 :
    (∀ reg target, NoMissingRefs reg →
        (∃ x, Relation.ReflTransGen (Edge reg) target x ∧ Relation.TransGen (Edge reg) x x) →
        ∃ c, resolve reg target = .error (.CyclicDependencyError c)) ∧
      resolve diamondReg "a" = .ok ⟨["d", "b", "c", "a"], []⟩ := by
  constructor
  · intro reg target hnomiss hcycle
    obtain ⟨x, hreach, hcyc⟩ := hcycle
    have htsome : (lookupItem reg target).isSome := by
      rcases Relation.ReflTransGen.cases_head hreach with heq | ⟨y, hy, _⟩
      · subst heq
        obtain ⟨y, hy⟩ := transGen_first_edge hcyc
        exact edge_isSome reg _ y hy
      · exact edge_isSome reg _ y hy
    cases hres : resolve reg target with
    | ok res => exact absurd hcyc (ok_no_reachable_cycle reg target res hres x hreach)
    | error e =>
      rcases resolve_error_cases reg target e hres with ⟨c, hc⟩ | ⟨m, r, heq, hnone, hcase⟩
      · exact ⟨c, by rw [hc]⟩
      · exfalso
        rcases hcase with ⟨hm, _⟩ | ⟨itr, hr, hmem⟩
        · subst hm
          rw [hnone] at htsome
          simp at htsome
        · obtain ⟨hmemreg, _⟩ := lookupItem_mem reg r itr hr
          have := hnomiss itr hmemreg m hmem
          rw [hnone] at this
          simp at this
  · decide

/-- Claim C2, witness: the two-item cyclic registry resolves to a
CyclicDependencyError. -/
theorem claim_C2_witness :
    ∃ c, resolve cycReg "a" = .error (.CyclicDependencyError c) :=
  claim_C2.1 cycReg "a" (by decide)
    ⟨"a", Relation.ReflTransGen.refl,
      Relation.TransGen.tail
        (Relation.TransGen.single (show Edge cycReg "a" "b" by decide))
        (show Edge cycReg "b" "a" by decide)⟩

/-- Claim C3, counterexample: when the target lists two missing
dependencies y1 and y2, resolution reports only the first one it
encounters: the claim instantiated at the pair (x, y2) demands an error
naming y2, but the run's unique outcome names y1. -/
theorem claim_C3_cex :
    resolve twoMissingReg "x" = .error (.UnresolvedDependencyError "y1" "x") ∧
      "y2" ∈ depsOf twoMissingReg "x" ∧ lookupItem twoMissingReg "y2" = none ∧
      resolve twoMissingReg "x" ≠ .error (.UnresolvedDependencyError "y2" "x") := by
  refine ⟨by decide, by decide, by decide, by decide⟩

/-- Claim C3 (amended): a missing registry reference is never silently
dropped — resolving an item that (transitively) lists an absent name can
never succeed — and every UnresolvedDependencyError raised names a
dependency genuinely absent from the registry together with its true
referrer (the missing target itself for a missing target, otherwise an
item that really lists the missing name); the specific pair need not be
the instantiated one when several defects coexist. -/
theorem claim_C3 :
    (∀ reg X itX Y, lookupItem reg X = some itX → Y ∈ itX.registryDependencies →
        lookupItem reg Y = none → ∀ res, resolve reg X ≠ .ok res) ∧
      (∀ reg t m r, resolve reg t = .error (.UnresolvedDependencyError m r) →
        lookupItem reg m = none ∧
          (m = t ∧ r = t ∨ ∃ itr, lookupItem reg r = some itr ∧ m ∈ itr.registryDependencies)) := by
  constructor
  · intro reg X itX Y hlx hy hynone res hok
    obtain ⟨htopo, _, hxmem⟩ := resolve_ok_inv reg X res hok
    have hedge : Edge reg X Y := (edge_iff reg X Y).mpr ⟨itX, hlx, hy⟩
    have hymem : Y ∈ res.closure := topoOk_closed reg res.closure htopo X Y hxmem hedge
    have hsome := topoOk_isSome_of_mem reg res.closure htopo Y hymem
    rw [hynone] at hsome
    simp at hsome
  · intro reg t m r h
    rcases resolve_error_cases reg t _ h with ⟨c, hc⟩ | ⟨m', r', heq, hnone, hcase⟩
    · simp at hc
    · have hm : m = m' ∧ r = r' := by
        constructor <;> injection heq
      obtain ⟨rfl, rfl⟩ := hm
      exact ⟨hnone, hcase⟩

/-- Claim C3, witness: resolving the item listing the missing names can
not succeed with any resolved value. -/
theorem claim_C3_witness : resolve twoMissingReg "x" ≠ .ok ⟨["x"], []⟩ :=
  claim_C3.1 twoMissingReg "x"
    { name := "x", type := "registry:hook", registryDependencies := ["y1", "y2"]
    , files := [{ path := "registry/webgl/hooks/x.ts", type := "registry:hook" }] }
    "y1" (by decide) (by decide) (by decide) ⟨["x"], []⟩

/-- Claim C5: whenever resolution succeeds, the emitted closure order is
a valid topological order — every item of the closure appears after every
item it transitively depends on (the dependency is in the closure and at
a strictly earlier position). -/
theorem claim_C5 :
    ∀ reg target res, resolve reg target = .ok res →
      ∀ a ∈ res.closure, ∀ b, Relation.TransGen (Edge reg) a b →
        b ∈ res.closure ∧ Precedes res.closure b a := by
  intro reg target res h a ha b hdep
  obtain ⟨htopo, _, _⟩ := resolve_ok_inv reg target res h
  obtain ⟨⟨i, hi⟩, hgi⟩ := List.mem_iff_get.mp ha
  obtain ⟨j, hj, hji, hgj⟩ := topoOk_transGen_precedes reg res.closure htopo a b hdep i hi hgi
  constructor
  · rw [← hgj]
    exact List.get_mem res.closure j hj
  · exact ⟨j, i, hj, hi, hji, hgj, hgi⟩

/-- Claim C5, witness: in the repository registry, double-fbo is in the
closure of use-double-fbo and precedes it in emitted order. -/
theorem claim_C5_witness :
    "double-fbo" ∈ (Resolved.mk ["double-fbo", "use-double-fbo"]
        ["three", "@react-three/fiber"]).closure ∧
      Precedes (Resolved.mk ["double-fbo", "use-double-fbo"]
        ["three", "@react-three/fiber"]).closure "double-fbo" "use-double-fbo" :=
  claim_C5 repoRegistry "use-double-fbo"
    ⟨["double-fbo", "use-double-fbo"], ["three", "@react-three/fiber"]⟩ (by decide)
    "use-double-fbo" (by decide) "double-fbo" (Relation.TransGen.single (by decide))

/-- Claim C6: resolution is deterministic — any two runs of the resolver
on the same registry and target return the identical result — and the
canonical serialization depends only on the closure and external sets as
sets: permuting either list (any insertion order) yields a byte-identical
serialized form, because both are rendered in canonical sorted order. -/
theorem claim_C6 :
    (∀ reg target i j, runResolve reg target i = runResolve reg target j) ∧
      (∀ r1 r2 : Resolved, r1.closure.Perm r2.closure → r1.externals.Perm r2.externals →
        serializeResolved r1 = serializeResolved r2) := by
  constructor
  · intro reg target i j
    rfl
  · intro r1 r2 hc he
    unfold serializeResolved
    rw [sortStrings_eq_of_perm hc, sortStrings_eq_of_perm he]

/-- Claim C6, witness: two runs of the resolver coincide, and two
differently ordered presentations of the use-double-fbo closure and
external sets serialize byte-identically. -/
theorem claim_C6_witness :
    runResolve repoRegistry "use-shader" 0 = runResolve repoRegistry "use-shader" 1 ∧
      serializeResolved ⟨["use-double-fbo", "double-fbo"], ["three", "@react-three/fiber"]⟩ =
        serializeResolved ⟨["double-fbo", "use-double-fbo"], ["@react-three/fiber", "three"]⟩ :=
  ⟨claim_C6.1 repoRegistry "use-shader" 0 1,
    claim_C6.2 ⟨["use-double-fbo", "double-fbo"], ["three", "@react-three/fiber"]⟩
      ⟨["double-fbo", "use-double-fbo"], ["@react-three/fiber", "three"]⟩
      (by decide) (by decide)⟩

/-- Claim C1, counterexample: in the aggregated repository registry, the
item use-shader declares the registry dependencies use-defines and
webgl-types, so the claim's reading that use-shader depends on
use-defines with no further registry dependency is false on the code. -/
theorem claim_C1_cex :
    aggregate repoGroups = .ok repoRegistry ∧
      (lookupItem repoRegistry "use-shader").map Item.registryDependencies =
        some ["use-defines", "webgl-types"] ∧
      ¬ (lookupItem repoRegistry "use-shader").map Item.registryDependencies =
        some ["use-defines"] := by
  refine ⟨by decide, by decide, by decide⟩

/-- Claim C1 (amended): over the aggregated repository registry,
resolving use-double-fbo yields exactly the closure set containing
double-fbo and use-double-fbo (canonically sorted as shown) and the
external set containing @react-three/fiber and three; and use-shader
depends on use-defines and webgl-types, neither of which has further
registry dependencies. -/
theorem claim_C1 :
    aggregate repoGroups = .ok repoRegistry ∧
      resolve repoRegistry "use-double-fbo" =
        .ok ⟨["double-fbo", "use-double-fbo"], ["three", "@react-three/fiber"]⟩ ∧
      sortStrings ["double-fbo", "use-double-fbo"] = ["double-fbo", "use-double-fbo"] ∧
      sortStrings ["three", "@react-three/fiber"] = ["@react-three/fiber", "three"] ∧
      (lookupItem repoRegistry "use-shader").map Item.registryDependencies =
        some ["use-defines", "webgl-types"] ∧
      (lookupItem repoRegistry "use-defines").map Item.registryDependencies = some [] ∧
      (lookupItem repoRegistry "webgl-types").map Item.registryDependencies = some [] := by
  refine ⟨by decide, by decide, by decide, by decide, by decide, by decide, by decide⟩

/-- Claim C4: whenever the declaration groups declare a name twice
(across groups or within one group), aggregation fails with a
DuplicateNameError, and the whole pipeline fails with that very error —
resolution never runs and no definition is silently kept. -/
theorem claim_C4 :
    ∀ groups, ¬ ((groups.flatten.map Item.name).Nodup) →
      ∃ n, aggregate groups = .error (.DuplicateNameError n) ∧
        ∀ fs, buildPipeline fs groups = .error (.DuplicateNameError n) := by
  intro groups hdup
  obtain ⟨n, hn⟩ := aggregateGo_dup_error groups.flatten [] (by simp) (by simpa using hdup)
  have hagg : aggregate groups = .error (.DuplicateNameError n) := hn
  refine ⟨n, hagg, ?_⟩
  intro fs
  unfold buildPipeline
  rw [hagg]

/-- Claim C4, witness: two groups both declaring foo make aggregation and
the pipeline fail with a DuplicateNameError. -/
theorem claim_C4_witness :
    ∃ n, aggregate dupGroups = .error (.DuplicateNameError n) ∧
      ∀ fs, buildPipeline fs dupGroups = .error (.DuplicateNameError n) :=
  claim_C4 dupGroups (by decide)

/-- Claim C7: the schema validator accumulates one SchemaViolationError
per violation, each carrying the offending item's name and the failing
field: an empty files array yields a violation on the files field, a
source path absent from disk yields a violation on the sourcePath field,
and an item violating several checks at once gets all of its violations
reported in the one pass. -/
theorem claim_C7 :
    (∀ fsPaths it, it.files = [] →
        BuildError.SchemaViolationError it.name "files" ∈ validateItem fsPaths it) ∧
      (∀ fsPaths it f, f ∈ it.files → fsPaths.contains f.path = false →
        BuildError.SchemaViolationError it.name "sourcePath" ∈ validateItem fsPaths it) ∧
      (∀ fsPaths it, isKebabName it.name = false → it.files = [] →
        BuildError.SchemaViolationError it.name "name" ∈ validateItem fsPaths it ∧
          BuildError.SchemaViolationError it.name "files" ∈ validateItem fsPaths it) := by
  refine ⟨?_, ?_, ?_⟩
  · intro fsPaths it hfiles
    unfold validateItem
    apply List.mem_append_left
    apply List.mem_append_right
    simp [hfiles]
  · intro fsPaths it f hf hcontains
    unfold validateItem
    apply List.mem_append_right
    refine List.mem_map.mpr ⟨f, List.mem_filter.mpr ⟨hf, ?_⟩, rfl⟩
    simp at hcontains
    simp [fileOk, hcontains]
  · intro fsPaths it hname hfiles
    constructor
    · unfold validateItem
      apply List.mem_append_left
      apply List.mem_append_left
      apply List.mem_append_left
      simp [hname]
    · unfold validateItem
      apply List.mem_append_left
      apply List.mem_append_right
      simp [hfiles]

/-- Claim C7, witness: the item with an invalid name and no files gets
both its name violation and its files violation in one validation pass. -/
theorem claim_C7_witness :
    BuildError.SchemaViolationError badItem.name "name" ∈ validateItem [] badItem ∧
      BuildError.SchemaViolationError badItem.name "files" ∈ validateItem [] badItem :=
  claim_C7.2.2 [] badItem (by decide) (by decide)

theorem emitFiles_ok_reads (fs : List (String × String)) :
    ∀ files out, emitFiles fs files = .ok out →
      ∀ f ∈ files, ∃ c, readFile fs f.path = some c := by
  intro files
  induction files with
  | nil => intro out _ f hf; simp at hf
  | cons g rest ih =>
    intro out h f hf
    rw [emitFiles] at h
    cases hread : readFile fs g.path with
    | none => rw [hread] at h; simp at h
    | some c =>
      rw [hread] at h
      cases hrest : emitFiles fs rest with
      | error e => rw [hrest] at h; simp at h
      | ok out' =>
        rw [hrest] at h
        rcases List.mem_cons.mp hf with hfg | hf'
        · subst hfg; exact ⟨c, hread⟩
        · exact ih out' hrest f hf'

theorem emitFiles_error_shape (fs : List (String × String)) :
    ∀ files e, emitFiles fs files = .error e → ∃ p, e = .FileReadError p := by
  intro files
  induction files with
  | nil => intro e h; simp [emitFiles] at h
  | cons g rest ih =>
    intro e h
    rw [emitFiles] at h
    cases hread : readFile fs g.path with
    | none =>
      rw [hread] at h
      simp at h
      exact ⟨g.path, h.symm⟩
    | some c =>
      rw [hread] at h
      cases hrest : emitFiles fs rest with
      | error e' =>
        rw [hrest] at h
        simp at h
        rw [← h]
        exact ih e' hrest
      | ok out' => rw [hrest] at h; simp at h

theorem emitDocs_ok_reads (fs : List (String × String)) :
    ∀ reg docs, emitDocs fs reg = .ok docs →
      ∀ it ∈ reg, ∀ f ∈ it.files, ∃ c, readFile fs f.path = some c := by
  intro reg
  induction reg with
  | nil => intro docs _ it hit; simp at hit
  | cons hd tl ih =>
    intro docs h it hit f hf
    rw [emitDocs] at h
    cases hitem : emitItem fs hd with
    | error e => rw [hitem] at h; simp at h
    | ok doc =>
      rw [hitem] at h
      cases hrest : emitDocs fs tl with
      | error e => rw [hrest] at h; simp at h
      | ok docs' =>
        rcases List.mem_cons.mp hit with hit1 | hit2
        · subst hit1
          unfold emitItem at hitem
          cases hfl : emitFiles fs it.files with
          | error e => rw [hfl] at hitem; simp at hitem
          | ok out => exact emitFiles_ok_reads fs it.files out hfl f hf
        · exact ih docs' hrest it hit2 f hf

theorem emitDocs_error_shape (fs : List (String × String)) :
    ∀ reg e, emitDocs fs reg = .error e → ∃ p, e = .FileReadError p := by
  intro reg
  induction reg with
  | nil => intro e h; simp [emitDocs] at h
  | cons hd tl ih =>
    intro e h
    rw [emitDocs] at h
    cases hitem : emitItem fs hd with
    | error e' =>
      rw [hitem] at h
      simp at h
      rw [← h]
      unfold emitItem at hitem
      cases hfl : emitFiles fs hd.files with
      | error e2 =>
        rw [hfl] at hitem
        simp at hitem
        rw [← hitem]
        exact emitFiles_error_shape fs hd.files e2 hfl
      | ok out => rw [hfl] at hitem; simp at hitem
    | ok doc =>
      rw [hitem] at h
      cases hrest : emitDocs fs tl with
      | error e' =>
        rw [hrest] at h
        simp at h
        rw [← h]
        exact ih e' hrest
      | ok docs' => rw [hrest] at h; simp at h

/-- Claim C8: emission is all-or-nothing — if reading the source file of
any item of the registry fails, the emitter returns a FileReadError and
produces no output at all: neither the aggregate manifest nor any
per-item document exists in the result. -/
theorem claim_C8 :
    ∀ fs reg, (∃ it ∈ reg, ∃ f ∈ it.files, readFile fs f.path = none) →
      ∃ p, emitAll fs reg = .error (.FileReadError p) := by
  intro fs reg hbad
  obtain ⟨it, hit, f, hf, hread⟩ := hbad
  cases hdocs : emitDocs fs reg with
  | ok docs =>
    obtain ⟨c, hc⟩ := emitDocs_ok_reads fs reg docs hdocs it hit f hf
    rw [hread] at hc
    simp at hc
  | error e =>
    obtain ⟨p, hp⟩ := emitDocs_error_shape fs reg e hdocs
    refine ⟨p, ?_⟩
    unfold emitAll
    rw [hdocs, hp]

/-- Claim C8, witness: in the five-item registry whose last file is
absent from the source tree, emission yields a FileReadError and no
output documents. -/
theorem claim_C8_witness :
    ∃ p, emitAll fourFileTree fiveReg = .error (.FileReadError p) :=
  claim_C8 fourFileTree fiveReg (by decide)

/-- Claim C9: path rewriting is a pure, stable function of the source
path and the kind — any path under the fixed source root is mapped to
its mirror with the root stripped, re-rewriting the rewritten form's
equivalent source path is stable (round-trip), and the spec's example
maps as stated. -/
theorem claim_C9 :
    (∀ rest kind, rewriteTarget (sourceRoot ++ rest) kind = rest) ∧
      (∀ p kind, rewriteTarget (sourceRoot ++ rewriteTarget p kind) kind =
        rewriteTarget p kind) ∧
      rewriteTarget "registry/webgl/hooks/x.ts" "registry:hook" = "hooks/x.ts" := by
  have hstrip : ∀ rest kind, rewriteTarget (sourceRoot ++ rest) kind = rest := by
    intro rest kind
    unfold rewriteTarget
    rw [String.data_append sourceRoot rest, List.take_left sourceRoot.data rest.data,
      if_pos rfl, List.drop_left sourceRoot.data rest.data]
  exact ⟨hstrip, fun p kind => hstrip (rewriteTarget p kind) kind, by decide⟩

/-- Claim C10: the repository's actual declaration groups form a valid
registry — aggregation succeeds and produces the flat merge, the item
names are pairwise distinct across the union of all groups, every
registryDependencies entry names a declared item, and resolving every
declared item succeeds (so the dependency graph is acyclic and free of
dangling references). -/
theorem claim_C10 :
    aggregate repoGroups = .ok repoRegistry ∧
      (repoGroups.flatten.map Item.name).Nodup ∧
      NoMissingRefs repoRegistry ∧
      registryBuildsOk repoGroups = true := by
  refine ⟨by decide, by decide, by decide, by decide⟩

end Glcn
